import Mathlib

/-!
Verification of the detection-probability calculator from the notebook
`Detection Probability.ipynb`.

The notebook defines

  class Detector(object):
      def __init__(self, n, k):
          self.n = n
          self.k = k
      def __call__(self, s):
          prob = math.pow((self.n-self.k)/self.n, s)
          return 1.0 - prob

We embed the class shallowly: `Detector` is a structure with two integer
fields, `Detector.create` is `__init__` (which stores its arguments and
performs no validation), and `Detector.call` is `__call__`.  Arithmetic
values are idealised as exact rationals; the run-time error conditions of
CPython's arithmetic are modelled exactly:

* `(self.n - self.k) / self.n` raises `ZeroDivisionError` when `self.n = 0`;
* `math.pow(0.0, s)` raises `ValueError` when `s < 0`;
* `math.pow` raises `OverflowError` when the magnitude of the exact result
  reaches the IEEE binary64 overflow threshold `2 ^ 1024`.

For the concrete printed values of the notebook we additionally model the
IEEE-754 binary64 rounding of each arithmetic step by the relation
`RoundsTo` (round to nearest, ties to even), and verify that the rounded
computation reproduces exactly the decimals recorded in the notebook's
output cell.
-/

set_option maxRecDepth 8000

namespace DetectionNotebook

/-- Run-time errors that CPython can raise while evaluating
`Detector.__call__`: division by zero in `(self.n-self.k)/self.n`,
`ValueError` from `math.pow(0.0, s)` with `s < 0`, and `OverflowError`
when `math.pow` exceeds the binary64 range. -/
inductive PyError where
  | zeroDivision
  | valueError
  | overflow
deriving DecidableEq

/-- The `Detector` class: two integer fields `n` (page size) and `k`
(size of malcode), assigned in `__init__`. -/
structure Detector where
  n : ℤ
  k : ℤ
deriving DecidableEq

/-- `Detector.__init__(self, n, k)`: stores both arguments unchanged.
The source contains no validation and no code path that can fail. -/
def Detector.create (n k : ℤ) : Detector := { n := n, k := k }

/-- The base `(self.n - self.k) / self.n` of the power in `__call__`:
integer subtraction followed by true division, idealised over `ℚ`. -/
def Detector.missProb (d : Detector) : ℚ := ((d.n - d.k : ℤ) : ℚ) / (d.n : ℚ)

/-- Smallest magnitude that no IEEE binary64 float can represent; at this
threshold `math.pow` raises `OverflowError`. -/
def overflowBound : ℚ := 2 ^ 1024

/-- `Detector.__call__(self, s)`: computes
`1.0 - math.pow((self.n-self.k)/self.n, s)`.  Values are idealised as
exact rationals; the three CPython error conditions are modelled as
`Except.error` outcomes in evaluation order: the division raises
`ZeroDivisionError` when `self.n = 0`, then `math.pow` raises
`ValueError` on a zero base with negative exponent and `OverflowError`
when the result magnitude reaches the binary64 range boundary. -/
def Detector.call (d : Detector) (s : ℤ) : Except PyError ℚ :=
  if d.n = 0 then .error .zeroDivision
  else if d.missProb = 0 ∧ s < 0 then .error .valueError
  else if overflowBound ≤ |d.missProb ^ s| then .error .overflow
  else .ok (1 - d.missProb ^ s)

/-- State-passing form of `__call__`: the method receives `self` and the
final state of `self` is returned next to the result.  The body of
`__call__` only reads `self.n` and `self.k` and assigns no attribute, so
the outgoing state is the incoming one. -/
def Detector.callS (d : Detector) (s : ℤ) : Except PyError ℚ × Detector :=
  (d.call s, d)

/-! IEEE-754 binary64 model for the notebook's printed values.  The
notebook computes with CPython floats: the division and the final
subtraction are correctly rounded binary64 operations (round to nearest,
ties to even), and `math.pow` on this data is correctly rounded as well.
We describe one rounding step by a relation on exact rationals. -/

/-- Value `m * 2 ^ e` — the real number denoted by a binary64 float with
integer mantissa `m` and scale `e`. -/
def dyadic (m e : ℤ) : ℚ := (m : ℚ) * 2 ^ e

/-- Modelled from IEEE-754 binary64 round-to-nearest, ties-to-even, for
positive values in the normal range: `RoundsTo q m e` states that the
float `dyadic m e` is the rounding of the exact value `q`.  The clauses:
the mantissa is normalised (`2 ^ 52 ≤ m < 2 ^ 53`), `q` is within half an
ulp of the float, an exact half-ulp distance forces an even mantissa, and
at the minimal mantissa `q` may lie at most a quarter ulp below (which
pins the binade, making the rounded value unique). -/
def RoundsTo (q : ℚ) (m e : ℤ) : Prop :=
  2 ^ 52 ≤ m ∧ m < 2 ^ 53 ∧ |q - dyadic m e| ≤ 2 ^ (e - 1) ∧
  (|q - dyadic m e| = 2 ^ (e - 1) → 2 ∣ m) ∧
  (m = 2 ^ 52 → -(2 ^ (e - 2)) < q - dyadic m e)

/-- Binary64 evaluation of `1.0 - math.pow((self.n-self.k)/self.n, s)`:
the division result, the power and the subtraction are each rounded to
the nearest binary64 float, and `r` is the float finally returned. -/
def FloatCall (d : Detector) (s : ℤ) (r : ℚ) : Prop :=
  ∃ mb eb mp ep mr er : ℤ,
    RoundsTo d.missProb mb eb ∧
    RoundsTo (dyadic mb eb ^ s) mp ep ∧
    RoundsTo (1 - dyadic mp ep) mr er ∧
    r = dyadic mr er

/-! Basic facts about the miss probability of a validly constructed model. -/

lemma create_n (n k : ℤ) : (Detector.create n k).n = n := rfl

lemma create_k (n k : ℤ) : (Detector.create n k).k = k := rfl

lemma missProb_create (n k : ℤ) :
    (Detector.create n k).missProb = ((n - k : ℤ) : ℚ) / (n : ℚ) := rfl

lemma missProb_nonneg {n k : ℤ} (hn : 0 < n) (hkn : k ≤ n) :
    0 ≤ (Detector.create n k).missProb := by
  rw [missProb_create]
  apply div_nonneg
  · exact_mod_cast Int.sub_nonneg.mpr hkn
  · exact_mod_cast hn.le

lemma missProb_le_one {n k : ℤ} (hn : 0 < n) (hk : 0 ≤ k) :
    (Detector.create n k).missProb ≤ 1 := by
  rw [missProb_create, div_le_one (by exact_mod_cast hn)]
  exact_mod_cast Int.sub_le_self n hk

lemma zpow_toNat {b : ℚ} {s : ℤ} (hs : 0 ≤ s) : b ^ s = b ^ s.toNat := by
  rw [← zpow_natCast b s.toNat, Int.toNat_of_nonneg hs]

/-- On a valid model and a non-negative sample count, no guard of
`Detector.call` fires and the call returns the closed-form value. -/
lemma call_of_valid {n k : ℤ} (hn : 0 < n) (hk : 0 ≤ k) (hkn : k ≤ n)
    {s : ℤ} (hs : 0 ≤ s) :
    (Detector.create n k).call s =
      .ok (1 - (Detector.create n k).missProb ^ s) := by
  have hb0 : 0 ≤ (Detector.create n k).missProb := missProb_nonneg hn hkn
  have hb1 : (Detector.create n k).missProb ≤ 1 := missProb_le_one hn hk
  have hpow0 : 0 ≤ (Detector.create n k).missProb ^ s := by
    rw [zpow_toNat hs]; exact pow_nonneg hb0 _
  have hpow1 : (Detector.create n k).missProb ^ s ≤ 1 := by
    rw [zpow_toNat hs]; exact pow_le_one₀ hb0 hb1
  rw [Detector.call, if_neg, if_neg, if_neg]
  · rw [not_le, abs_of_nonneg hpow0]
    calc (Detector.create n k).missProb ^ s ≤ 1 := hpow1
    _ < overflowBound := by rw [overflowBound]; norm_num
  · rintro ⟨-, hslt⟩
    exact absurd hs (not_le.mpr hslt)
  · rw [create_n]
    exact hn.ne'

/-- Claim C1: for a model constructed with `populationSize = n > 0` and
`0 ≤ markedCount = k ≤ n`, and any integer `sampleCount = s ≥ 0`,
`detectionProbability(s)` returns exactly `1 - ((n - k) / n) ^ s`, the
base being the single-draw miss probability. -/
theorem detectionProbability_formula (n k s : ℤ)
    (hn : 0 < n) (hk : 0 ≤ k) (hkn : k ≤ n) (hs : 0 ≤ s) :
    (Detector.create n k).call s =
      .ok (1 - (((n - k : ℤ) : ℚ) / (n : ℚ)) ^ s) :=
  call_of_valid hn hk hkn hs

/-- Witness for C1: the notebook's own scenario `n = 4096`, `k = 100`,
`s = 10`. -/
theorem detectionProbability_formula_witness :
    (Detector.create 4096 100).call 10 =
      .ok (1 - (((4096 - 100 : ℤ) : ℚ) / ((4096 : ℤ) : ℚ)) ^ (10 : ℤ)) :=
  detectionProbability_formula 4096 100 10 (by decide) (by decide)
    (by decide) (by decide)

/-- Counterexample to C2: `__init__` contains no check and no raise, so
construction is a total function.  At each of the three inputs the claim
names as failing — `populationSize = 0`, `markedCount = -1`,
`markedCount = populationSize + 1` — a `Detector` is constructed with the
arguments stored unchanged, and no `InvalidArgument` (or any) error
occurs. -/
theorem create_invalid_arguments_accepted :
    (Detector.create 0 0).n = 0 ∧ (Detector.create 5 (-1)).k = -1 ∧
      (Detector.create 5 6).k = 6 :=
  ⟨rfl, rfl, rfl⟩

/-- Claim C2 as amended: construction never fails; `create` performs no
validation and stores both arguments unchanged for every argument pair,
including `populationSize = 0`, `markedCount = -1` and
`markedCount = populationSize + 1`. -/
theorem create_stores_arguments (n k : ℤ) :
    (Detector.create n k).n = n ∧ (Detector.create n k).k = k :=
  ⟨rfl, rfl⟩

/-- Counterexample to C3: on the validly constructed model `(2, 1)`,
`detectionProbability(-1)` does not fail with `InvalidArgument` — it
returns the value `1 - (1/2)⁻¹ = -1`. -/
theorem call_neg_one_returns_value :
    (Detector.create 2 1).call (-1) = .ok (-1) := by
  rw [Detector.call, if_neg, if_neg, if_neg]
  · norm_num [missProb_create]
  · rw [not_le, missProb_create]
    norm_num [overflowBound]
  · rw [missProb_create]
    norm_num
  · rw [create_n]
    norm_num

/-- Claim C3 as amended: on every validly constructed model the call
never fails for any `sampleCount ≥ 0`; a negative `sampleCount` is not
validated and never produces `InvalidArgument` (on a model with
`markedCount < populationSize` it returns an out-of-range value
instead). -/
theorem call_nonneg_never_fails (n k s : ℤ)
    (hn : 0 < n) (hk : 0 ≤ k) (hkn : k ≤ n) (hs : 0 ≤ s) :
    ∃ q : ℚ, (Detector.create n k).call s = .ok q :=
  ⟨_, call_of_valid hn hk hkn hs⟩

/-- Witness for the amended C3 at `n = 2`, `k = 1`, `s = 0`. -/
theorem call_nonneg_never_fails_witness :
    ∃ q : ℚ, (Detector.create 2 1).call 0 = .ok q :=
  call_nonneg_never_fails 2 1 0 (by decide) (by decide) (by decide)
    (by decide)

/-- Claim C4: for every model with `populationSize > 0` and
`0 ≤ markedCount ≤ populationSize`, and every `sampleCount ≥ 0`, the
value returned by `detectionProbability` lies in `[0, 1]`. -/
theorem detectionProbability_in_unit_interval (n k s : ℤ)
    (hn : 0 < n) (hk : 0 ≤ k) (hkn : k ≤ n) (hs : 0 ≤ s) :
    ∃ q : ℚ, (Detector.create n k).call s = .ok q ∧ 0 ≤ q ∧ q ≤ 1 := by
  have hb0 : 0 ≤ (Detector.create n k).missProb := missProb_nonneg hn hkn
  have hb1 : (Detector.create n k).missProb ≤ 1 := missProb_le_one hn hk
  refine ⟨_, call_of_valid hn hk hkn hs, ?_, ?_⟩
  · rw [sub_nonneg, zpow_toNat hs]
    exact pow_le_one₀ hb0 hb1
  · have : 0 ≤ (Detector.create n k).missProb ^ s := by
      rw [zpow_toNat hs]; exact pow_nonneg hb0 _
    linarith

/-- Witness for C4 at `n = 4096`, `k = 100`, `s = 10`. -/
theorem detectionProbability_in_unit_interval_witness :
    ∃ q : ℚ, (Detector.create 4096 100).call 10 = .ok q ∧ 0 ≤ q ∧ q ≤ 1 :=
  detectionProbability_in_unit_interval 4096 100 10 (by decide) (by decide)
    (by decide) (by decide)

/-- Claim C5: for a fixed valid model, `detectionProbability` is
non-decreasing in `sampleCount`: whenever `0 ≤ s₁ ≤ s₂` both calls
succeed and the first value is at most the second. -/
theorem detectionProbability_monotone (n k s₁ s₂ : ℤ)
    (hn : 0 < n) (hk : 0 ≤ k) (hkn : k ≤ n) (hs₁ : 0 ≤ s₁) (h₁₂ : s₁ ≤ s₂) :
    ∃ q₁ q₂ : ℚ, (Detector.create n k).call s₁ = .ok q₁ ∧
      (Detector.create n k).call s₂ = .ok q₂ ∧ q₁ ≤ q₂ := by
  have hs₂ : 0 ≤ s₂ := hs₁.trans h₁₂
  have hb0 : 0 ≤ (Detector.create n k).missProb := missProb_nonneg hn hkn
  have hb1 : (Detector.create n k).missProb ≤ 1 := missProb_le_one hn hk
  refine ⟨_, _, call_of_valid hn hk hkn hs₁, call_of_valid hn hk hkn hs₂, ?_⟩
  have hmono : (Detector.create n k).missProb ^ s₂ ≤
      (Detector.create n k).missProb ^ s₁ := by
    rw [zpow_toNat hs₁, zpow_toNat hs₂]
    exact pow_le_pow_of_le_one hb0 hb1 (Int.toNat_le_toNat h₁₂)
  linarith

/-- Witness for C5 at `n = 2`, `k = 1`, `s₁ = 1`, `s₂ = 2`. -/
theorem detectionProbability_monotone_witness :
    ∃ q₁ q₂ : ℚ, (Detector.create 2 1).call 1 = .ok q₁ ∧
      (Detector.create 2 1).call 2 = .ok q₂ ∧ q₁ ≤ q₂ :=
  detectionProbability_monotone 2 1 1 2 (by decide) (by decide) (by decide)
    (by decide) (by decide)

/-- Claim C7: when `markedCount = populationSize > 0`, the single-draw
miss probability is `0`, so `detectionProbability(s)` is exactly `1` for
every `sampleCount ≥ 1`. -/
theorem detectionProbability_all_marked (n s : ℤ) (hn : 0 < n) (hs : 1 ≤ s) :
    (Detector.create n n).call s = .ok 1 := by
  have hb : (Detector.create n n).missProb = 0 := by
    rw [missProb_create]
    simp
  have hpow : (Detector.create n n).missProb ^ s = 0 := by
    rw [hb]
    exact zero_zpow s (by omega)
  rw [Detector.call, if_neg, if_neg, if_neg]
  · rw [hpow, sub_zero]
  · rw [not_le, hpow, abs_zero, overflowBound]
    norm_num
  · rintro ⟨-, hslt⟩
    omega
  · rw [create_n]
    exact hn.ne'

/-- Witness for C7 at `n = 3`, `s = 5`. -/
theorem detectionProbability_all_marked_witness :
    (Detector.create 3 3).call 5 = .ok 1 :=
  detectionProbability_all_marked 3 5 (by decide) (by decide)

/-- Claim C8: `__call__` never mutates the model.  In the state-passing
embedding of the method, the outgoing `self` after any call has the same
`n` and `k` fields as the incoming one, and the produced result is
exactly the value of the pure function `Detector.call` — there is no
other observable effect. -/
theorem call_no_mutation (d : Detector) (s : ℤ) :
    (d.callS s).2.n = d.n ∧ (d.callS s).2.k = d.k ∧
      (d.callS s).1 = d.call s :=
  ⟨rfl, rfl, rfl⟩

/-- Claim C9: constructing a model with `populationSize = 0` succeeds
(the constructor validates nothing), and every subsequent call on such a
model raises `ZeroDivisionError` at call time — the division
`(self.n - self.k) / self.n` is evaluated before anything else — rather
than `InvalidArgument` at construction time. -/
theorem create_zero_population_division_error (k s : ℤ) :
    Detector.create 0 k = { n := 0, k := k } ∧
      (Detector.create 0 k).call s = .error .zeroDivision :=
  ⟨rfl, by rw [Detector.call, if_pos (create_n 0 k)]⟩

/-- Counterexample to C10: `math.pow` overflows the binary64 range for a
sufficiently negative sample count, so the call does not always return a
value.  On the model `(2, 1)` with `s = -1100` the exact power is
`2 ^ 1100 ≥ 2 ^ 1024` and the call raises `OverflowError`. -/
theorem call_very_negative_sample_overflow :
    (Detector.create 2 1).call (-1100) = .error .overflow := by
  rw [Detector.call, if_neg, if_neg, if_pos]
  · rw [missProb_create, overflowBound]
    norm_num
  · rw [missProb_create]
    norm_num
  · rw [create_n]
    norm_num

/-- Claim C10 as amended: for every model with
`0 < markedCount < populationSize` and every negative `sampleCount`
whose power stays below the binary64 overflow threshold
(`populationSize ^ |s| < 2 ^ 1024` suffices), the call raises no error
and returns `1 - ((n - k) / n) ^ s`, which is strictly negative and
therefore outside `[0, 1]`; for more negative sample counts `math.pow`
raises `OverflowError` instead. -/
theorem call_negative_sample_strictly_negative (n k s : ℤ)
    (hk : 0 < k) (hkn : k < n) (hs : s < 0)
    (hov : n.toNat ^ (-s).toNat < 2 ^ 1024) :
    ∃ q : ℚ, (Detector.create n k).call s = .ok q ∧
      q = 1 - (((n - k : ℤ) : ℚ) / (n : ℚ)) ^ s ∧ q < 0 := by
  have hn : 0 < n := hk.trans hkn
  have hnq : (0 : ℚ) < (n : ℚ) := by exact_mod_cast hn
  have hb0 : 0 < (Detector.create n k).missProb := by
    rw [missProb_create]
    apply div_pos _ hnq
    exact_mod_cast Int.sub_pos.mpr hkn
  have hb1 : (Detector.create n k).missProb < 1 := by
    rw [missProb_create, div_lt_one hnq]
    exact_mod_cast Int.sub_lt_self n hk
  have hlow : 1 / (n : ℚ) ≤ (Detector.create n k).missProb := by
    rw [missProb_create, div_le_div_iff_of_pos_right hnq]
    exact_mod_cast (by omega : (1 : ℤ) ≤ n - k)
  have hpow_big : 1 < (Detector.create n k).missProb ^ s :=
    one_lt_zpow_of_neg₀ hb0 hb1 hs
  have hpow_pos : 0 < (Detector.create n k).missProb ^ s :=
    zpow_pos hb0 s
  have hpow_bound : (Detector.create n k).missProb ^ s < overflowBound := by
    have hneg : 0 ≤ -s := by omega
    have h1 : (Detector.create n k).missProb ^ s =
        ((Detector.create n k).missProb ^ (-s).toNat)⁻¹ := by
      rw [← zpow_natCast _ (-s).toNat, Int.toNat_of_nonneg hneg, zpow_neg,
        inv_inv]
    have h2 : (1 / (n : ℚ)) ^ (-s).toNat ≤
        (Detector.create n k).missProb ^ (-s).toNat :=
      pow_le_pow_left₀ (by positivity) hlow _
    have h3 : ((Detector.create n k).missProb ^ (-s).toNat)⁻¹ ≤
        ((1 / (n : ℚ)) ^ (-s).toNat)⁻¹ := by
      apply inv_anti₀ _ h2
      positivity
    have h4 : ((1 / (n : ℚ)) ^ (-s).toNat)⁻¹ = (n : ℚ) ^ (-s).toNat := by
      rw [one_div, inv_pow, inv_inv]
    have h5 : ((n : ℚ)) ^ (-s).toNat < 2 ^ 1024 := by
      have hcast : ((n.toNat : ℚ)) = (n : ℚ) := by
        exact_mod_cast congrArg (Int.cast : ℤ → ℚ) (Int.toNat_of_nonneg hn.le)
      calc ((n : ℚ)) ^ (-s).toNat = ((n.toNat ^ (-s).toNat : ℕ) : ℚ) := by
            push_cast [hcast]; ring
      _ < ((2 ^ 1024 : ℕ) : ℚ) := by exact_mod_cast hov
      _ = 2 ^ 1024 := by push_cast; ring
    rw [overflowBound]
    calc (Detector.create n k).missProb ^ s ≤ (n : ℚ) ^ (-s).toNat := by
          rw [h1]; exact h3.trans h4.le
    _ < 2 ^ 1024 := h5
  refine ⟨_, ?_, rfl, ?_⟩
  · rw [Detector.call, if_neg, if_neg, if_neg]
    · rw [missProb_create]
    · rw [not_le, abs_of_nonneg hpow_pos.le]
      rw [missProb_create] at hpow_bound
      exact hpow_bound
    · rintro ⟨hzero, -⟩
      exact hb0.ne' hzero
    · rw [create_n]
      exact hn.ne'
  · rw [missProb_create] at hpow_big
    linarith

/-- Witness for the amended C10 at `n = 2`, `k = 1`, `s = -1`. -/
theorem call_negative_sample_strictly_negative_witness :
    ∃ q : ℚ, (Detector.create 2 1).call (-1) = .ok q ∧
      q = 1 - (((2 - 1 : ℤ) : ℚ) / ((2 : ℤ) : ℚ)) ^ (-1 : ℤ) ∧ q < 0 :=
  call_negative_sample_strictly_negative 2 1 (-1) (by decide) (by decide)
    (by decide) (by decide)

/-! The rounding relation is single valued, so the float chain in
`FloatCall` determines the returned float uniquely. -/

lemma two_zpow_pos (e : ℤ) : (0 : ℚ) < (2 : ℚ) ^ e := zpow_pos (by norm_num) e

lemma two_zpow_sub_one (e : ℤ) : (2 : ℚ) ^ (e - 1) = (2 : ℚ) ^ e / 2 := by
  rw [zpow_sub₀ (by norm_num : (2 : ℚ) ≠ 0)]
  norm_num

lemma two_zpow_sub_two (e : ℤ) : (2 : ℚ) ^ (e - 2) = (2 : ℚ) ^ e / 4 := by
  rw [zpow_sub₀ (by norm_num : (2 : ℚ) ≠ 0)]
  norm_num

lemma roundsTo_lower {q : ℚ} {m e : ℤ} (h : RoundsTo q m e) :
    2 ^ 52 * (2 : ℚ) ^ e - (2 : ℚ) ^ e / 4 < q := by
  obtain ⟨h1, -, h3, -, h5⟩ := h
  have hepos := two_zpow_pos e
  rcases eq_or_lt_of_le h1 with hm | hm
  · have := h5 hm.symm
    rw [dyadic, ← hm, two_zpow_sub_two] at this
    push_cast at this
    linarith
  · have hms : (2 ^ 52 + 1 : ℚ) ≤ (m : ℚ) := by
      have hzz : (2 ^ 52 + 1 : ℤ) ≤ m := hm
      exact_mod_cast hzz
    have habs := (abs_le.mp h3).1
    rw [dyadic, two_zpow_sub_one] at habs
    nlinarith

lemma roundsTo_upper {q : ℚ} {m e : ℤ} (h : RoundsTo q m e) :
    q ≤ 2 ^ 53 * (2 : ℚ) ^ e - (2 : ℚ) ^ e / 2 := by
  obtain ⟨-, h2, h3, -, -⟩ := h
  have hepos := two_zpow_pos e
  have hms : (m : ℚ) ≤ 2 ^ 53 - 1 := by
    have hzz : m ≤ 2 ^ 53 - 1 := by omega
    exact_mod_cast hzz
  have habs := (abs_le.mp h3).2
  rw [dyadic, two_zpow_sub_one] at habs
  nlinarith

lemma roundsTo_binade_not_lt {q : ℚ} {m e m' e' : ℤ}
    (h : RoundsTo q m e) (h' : RoundsTo q m' e') (hlt : e < e') : False := by
  have hu := roundsTo_upper h
  have hl := roundsTo_lower h'
  have hepos := two_zpow_pos e
  have hT : (2 : ℚ) ≤ (2 : ℚ) ^ (e' - e) := by
    calc (2 : ℚ) = (2 : ℚ) ^ (1 : ℤ) := (zpow_one 2).symm
    _ ≤ (2 : ℚ) ^ (e' - e) :=
        zpow_le_zpow_right₀ (by norm_num) (by omega)
  have hsplit : (2 : ℚ) ^ e' = (2 : ℚ) ^ (e' - e) * (2 : ℚ) ^ e := by
    rw [← zpow_add₀ (by norm_num : (2 : ℚ) ≠ 0)]
    congr 1
    ring
  rw [hsplit] at hl
  have key : 0 ≤ ((2 : ℚ) ^ (e' - e) - 2) * (2 : ℚ) ^ e :=
    mul_nonneg (by linarith) hepos.le
  nlinarith

lemma roundsTo_binade {q : ℚ} {m e m' e' : ℤ}
    (h : RoundsTo q m e) (h' : RoundsTo q m' e') : e = e' := by
  by_contra hne
  rcases lt_or_gt_of_ne hne with hlt | hlt
  · exact roundsTo_binade_not_lt h h' hlt
  · exact roundsTo_binade_not_lt h' h hlt

/-- Round-to-nearest-ties-to-even is single valued: two floats that both
stand in the `RoundsTo` relation to the same exact value are equal. -/
lemma roundsTo_value_unique {q : ℚ} {m e m' e' : ℤ}
    (h : RoundsTo q m e) (h' : RoundsTo q m' e') :
    dyadic m e = dyadic m' e' := by
  obtain rfl : e = e' := roundsTo_binade h h'
  obtain ⟨h1, h2, h3, h4, -⟩ := h
  obtain ⟨h1', h2', h3', h4', -⟩ := h'
  have hepos := two_zpow_pos e
  have habs : |dyadic m e - dyadic m' e| ≤
      |q - dyadic m e| + |q - dyadic m' e| := by
    calc |dyadic m e - dyadic m' e| ≤
        |dyadic m e - q| + |q - dyadic m' e| := abs_sub_le _ _ _
    _ = |q - dyadic m e| + |q - dyadic m' e| := by rw [abs_sub_comm]
  have hdy : dyadic m e - dyadic m' e = ((m - m' : ℤ) : ℚ) * (2 : ℚ) ^ e := by
    rw [dyadic, dyadic]
    push_cast
    ring
  have habs2 : |dyadic m e - dyadic m' e| =
      |((m - m' : ℤ) : ℚ)| * (2 : ℚ) ^ e := by
    rw [hdy, abs_mul, abs_of_pos hepos]
  rcases eq_or_ne m m' with rfl | hne
  · rfl
  exfalso
  have hone : (1 : ℚ) ≤ |((m - m' : ℤ) : ℚ)| := by
    have hzz : (1 : ℤ) ≤ |m - m'| := by
      have h0 : 0 < |m - m'| := abs_sub_pos.mpr hne
      omega
    calc (1 : ℚ) = ((1 : ℤ) : ℚ) := by norm_num
    _ ≤ ((|m - m'| : ℤ) : ℚ) := by exact_mod_cast hzz
    _ = |((m - m' : ℤ) : ℚ)| := by push_cast; ring_nf
  have hup : |((m - m' : ℤ) : ℚ)| ≤ 1 := by
    have hs1 := two_zpow_sub_one e
    have hcomb : |((m - m' : ℤ) : ℚ)| * (2 : ℚ) ^ e ≤ (2 : ℚ) ^ e := by
      rw [← habs2]
      calc |dyadic m e - dyadic m' e| ≤
          |q - dyadic m e| + |q - dyadic m' e| := habs
      _ ≤ (2 : ℚ) ^ (e - 1) + (2 : ℚ) ^ (e - 1) := add_le_add h3 h3'
      _ = (2 : ℚ) ^ e := by rw [hs1]; ring
    have hcomb1 : |((m - m' : ℤ) : ℚ)| * (2 : ℚ) ^ e ≤ 1 * (2 : ℚ) ^ e := by
      linarith [hcomb]
    exact le_of_mul_le_mul_right hcomb1 hepos
  have hd1 : |((m - m' : ℤ) : ℚ)| = 1 := le_antisymm hup hone
  have htie : |q - dyadic m e| = (2 : ℚ) ^ (e - 1) ∧
      |q - dyadic m' e| = (2 : ℚ) ^ (e - 1) := by
    have hs1 := two_zpow_sub_one e
    have hge : (2 : ℚ) ^ e ≤ |q - dyadic m e| + |q - dyadic m' e| := by
      calc (2 : ℚ) ^ e = |((m - m' : ℤ) : ℚ)| * (2 : ℚ) ^ e := by
            rw [hd1, one_mul]
      _ = |dyadic m e - dyadic m' e| := habs2.symm
      _ ≤ _ := habs
    constructor
    · apply le_antisymm h3
      have hlow : (2 : ℚ) ^ e - (2 : ℚ) ^ (e - 1) ≤ |q - dyadic m e| := by
        linarith [h3']
      linarith [hs1, hlow]
    · apply le_antisymm h3'
      have hlow : (2 : ℚ) ^ e - (2 : ℚ) ^ (e - 1) ≤ |q - dyadic m' e| := by
        linarith [h3]
      linarith [hs1, hlow]
  have hm2 := h4 htie.1
  have hm2' := h4' htie.2
  have habs3 : |m - m'| = 1 := by
    have hcast : ((|m - m'| : ℤ) : ℚ) = ((1 : ℤ) : ℚ) := by
      push_cast
      rw [← hd1]
      push_cast
      ring_nf
    exact_mod_cast hcast
  rcases (abs_eq (by norm_num : (0 : ℤ) ≤ 1)).mp habs3 with hpm | hpm <;> omega

/-- The binary64 evaluation of the call is deterministic: any two floats
related to the same model and sample count by `FloatCall` are equal. -/
lemma floatCall_unique {d : Detector} {s : ℤ} {r r' : ℚ}
    (h : FloatCall d s r) (h' : FloatCall d s r') : r = r' := by
  obtain ⟨mb, eb, mp, ep, mr, er, hb, hp, hr, rfl⟩ := h
  obtain ⟨mb', eb', mp', ep', mr', er', hb', hp', hr', rfl⟩ := h'
  have h1 : dyadic mb eb = dyadic mb' eb' := roundsTo_value_unique hb hb'
  rw [← h1] at hp'
  have h2 : dyadic mp ep = dyadic mp' ep' := roundsTo_value_unique hp hp'
  rw [← h2] at hr'
  exact roundsTo_value_unique hr hr'

/-- Claim C6: on the model `populationSize = 4096`, `markedCount = 100`,
the binary64 evaluation of `detectionProbability` returns for
`sampleCount` 10, 50 and 100 exactly the floats whose shortest decimal
representations are the notebook's printed values `0.2189922995883098`,
`0.7094127337255405` and `0.9155590406791363`: each printed decimal
rounds back to the very float the call produces. -/
theorem detectionProbability_printed_values :
    (FloatCall (Detector.create 4096 100) 10 (dyadic 7890029110583360 (-55)) ∧
      RoundsTo (0.2189922995883098 : ℚ) 7890029110583360 (-55)) ∧
    (FloatCall (Detector.create 4096 100) 50 (dyadic 6389821846516458 (-53)) ∧
      RoundsTo (0.7094127337255405 : ℚ) 6389821846516458 (-53)) ∧
    (FloatCall (Detector.create 4096 100) 100 (dyadic 8246622708876494 (-53)) ∧
      RoundsTo (0.9155590406791363 : ℚ) 8246622708876494 (-53)) := by
  refine ⟨⟨⟨8787296929185792, -53, 7034691977095152, -53,
      7890029110583360, -55, ?_, ?_, ?_, rfl⟩, ?_⟩,
    ⟨⟨8787296929185792, -53, 5234754816449069, -54,
      6389821846516458, -53, ?_, ?_, ?_, rfl⟩, ?_⟩,
    ⟨⟨8787296929185792, -53, 6084612366915982, -56,
      8246622708876494, -53, ?_, ?_, ?_, rfl⟩, ?_⟩⟩ <;>
    norm_num [RoundsTo, dyadic, abs_le, abs_eq, Detector.missProb, Detector.create]

end DetectionNotebook
